import Mathlib

/-!
Shallow embedding of the checkpoint-persistence subsystem of
`src/custom_callbacks.py` (class `ModelCheckpointYolov4`), together with
theorems settling the specification claims about it.

Conventions of the embedding:
* Python ints that are always non-negative in the program (epoch and batch
  indices, modification times) are `Nat`; the `save_freq` integer, which the
  code never bounds, is `Int`.
* Metric values carried in the `logs` dict are `Rat` (the order-theoretic
  content of the claims does not depend on floating-point rounding).
* The running best value, which the code initialises to `np.Inf` or
  `-np.Inf`, lives in `WithBot (WithTop Rat)`: `⊥` is `-inf`, `⊤` is `+inf`.
* A Python `str.format` template is a list of literal pieces and named
  placeholders; the only format spec the callback's documentation uses on
  integer placeholders is zero-padding to a width, which is modelled by a
  `width` field (`width = 0` meaning no padding).  Decimal rendering of
  float metrics is not modelled bit-for-bit (no claim depends on it); a
  rational value renders as sign, numerator, slash, denominator.
* Fallible operations return `Except String`; a raised `KeyError e` from
  `str.format` becomes `.error e` carrying the missing placeholder name.
-/

/-- One piece of a path template: a literal string, or a named placeholder
with a zero-padding width (for example the epoch placeholder with width 2). -/
inductive TItem where
  | lit (s : String) : TItem
  | hole (name : String) (width : Nat) : TItem
deriving DecidableEq, Repr

/-- A value that can be substituted for a placeholder: an integer (epoch or
batch index) or a metric value from the logs. -/
inductive FmtVal where
  | intV (n : Nat) : FmtVal
  | ratV (q : Rat) : FmtVal
deriving DecidableEq, Repr

def digitChar (d : Nat) : Char := Char.ofNat (48 + d)

/-- Decimal digits of a natural number, fuel-driven so that the kernel can
evaluate it. -/
def natDigitsAux : Nat → Nat → List Char
  | 0, _ => []
  | fuel + 1, n =>
      if n < 10 then [digitChar n]
      else natDigitsAux fuel (n / 10) ++ [digitChar (n % 10)]

def natStr (n : Nat) : String := String.mk (natDigitsAux (n + 1) n)

/-- Zero-pad the decimal rendering of `n` to at least `width` characters,
as Python renders an integer under a format spec of 0 then the width then d. -/
def natPad (width n : Nat) : String :=
  let s := natStr n
  String.mk (List.replicate (width - s.length) '0') ++ s

/-- Stand-in rendering of a rational metric value (sign, numerator, slash,
denominator).  No claim depends on the decimal text of a metric. -/
def ratStr (q : Rat) : String :=
  (if q.num < 0 then "-" else "") ++ natStr q.num.natAbs ++ "/" ++ natStr q.den

def renderFmt (width : Nat) : FmtVal → String
  | .intV n => natPad width n
  | .ratV q => ratStr q

/-- Python `str.format` over a template: scan left to right, substituting
each placeholder from the keyword mapping; a placeholder whose name is not
in the mapping raises KeyError, modelled as `.error` with the name. -/
def pyFormat : List TItem → List (String × FmtVal) → Except String String
  | [], _ => .ok ""
  | .lit s :: ts, m => (pyFormat ts m).map (fun r => s ++ r)
  | .hole nm w :: ts, m =>
      match m.lookup nm with
      | none => .error nm
      | some v => (pyFormat ts m).map (fun r => renderFmt w v ++ r)

def logsKw (logs : List (String × Rat)) : List (String × FmtVal) :=
  logs.map (fun p => (p.1, .ratV p.2))

/-- The keyword mapping `ModelCheckpointYolov4._get_file_path` passes to
`str.format`: `epoch` is the internal epoch plus one; when a batch index is
present and the logs do not already carry a `batch` entry, `batch` is the
internal batch plus one; all log entries are passed through. -/
def kwArgs (epoch : Nat) (batch : Option Nat) (logs : List (String × Rat)) :
    List (String × FmtVal) :=
  match batch with
  | none => ("epoch", .intV (epoch + 1)) :: logsKw logs
  | some b =>
      if (logs.lookup "batch").isSome then
        ("epoch", .intV (epoch + 1)) :: logsKw logs
      else
        ("epoch", .intV (epoch + 1)) :: ("batch", .intV (b + 1)) :: logsKw logs

/-- `ModelCheckpointYolov4._get_file_path` (source lines 320-342): format the
template with the keyword mapping; a missing placeholder raises (the code
re-raises the KeyError with a longer message; the carried name is kept here). -/
def get_file_path (filepath : List TItem) (epoch : Nat) (batch : Option Nat)
    (logs : List (String × Rat)) : Except String String :=
  pyFormat filepath (kwArgs epoch batch logs)

example : natPad 2 5 = "05" := by decide
example : get_file_path [.lit "ckpt-", .hole "epoch" 2, .lit ".bin"] 4 none []
    = .ok "ckpt-05.bin" := rfl

/-! ## Constructor (`ModelCheckpointYolov4.__init__`) -/

/-- The `save_freq` argument as Python sees it: the string literal epoch
marker, an arbitrary int, or any other value (which `isinstance` rejects). -/
inductive PyFreq where
  | epochF : PyFreq
  | intF (n : Int) : PyFreq
  | otherF : PyFreq
deriving DecidableEq, Repr

/-- The resolved comparison operator: `np.less` or `np.greater`. -/
inductive CmpOp where
  | lt : CmpOp
  | gt : CmpOp
deriving DecidableEq, Repr

/-- Extended metric values: `⊥` models `-np.Inf`, `⊤` models `np.Inf`. -/
abbrev XQ : Type := WithBot (WithTop Rat)

def finQ (q : Rat) : XQ := ((q : WithTop Rat) : XQ)

def posInfQ : XQ := ((⊤ : WithTop Rat) : XQ)

def negInfQ : XQ := (⊥ : XQ)

/-- `monitor_op(current, best)`: `np.less` is `<`, `np.greater` is `>`. -/
def monitor_op : CmpOp → XQ → XQ → Bool
  | .lt, a, b => decide (a < b)
  | .gt, a, b => decide (b < a)

/-- Python's substring test `sub in s`, by scanning every suffix. -/
def strPre : List Char → List Char → Bool
  | [], _ => true
  | _ :: _, [] => false
  | a :: as, b :: bs => a = b && strPre as bs

def pyInGo (sub : List Char) : List Char → Bool
  | [] => strPre sub []
  | b :: bs => strPre sub (b :: bs) || pyInGo sub bs

def pyIn (sub s : String) : Bool := pyInGo sub.data s.data

/-- Python's `s.startswith(sub)`: `sub` is a prefix of `s`. -/
def pyStarts (sub s : String) : Bool := strPre sub.data s.data

/-- The auto-mode test of `__init__` line 138:
`"acc" in self.monitor or self.monitor.startswith("fmeasure")`. -/
def autoGreater (monitor : String) : Bool :=
  pyIn "acc" monitor || pyStarts "fmeasure" monitor

/-- Immutable configuration produced by `__init__` (the fields the claims
touch; `model_name`, `options` and the weights-only switch are opaque to
every claim and omitted). -/
structure Config where
  filepath : List TItem
  monitor : String
  save_best_only : Bool
  op : CmpOp
  best0 : XQ
  save_freq : PyFreq
  period : Nat
deriving Repr

/-- `ModelCheckpointYolov4.__init__` (source lines 47-156), restricted to the
configuration fields.  An unknown `mode` string only logs a warning and falls
back to `"auto"` (lines 122-127); the `mode` / monitor-name resolution of
lines 129-145 fixes the comparison operator and the initial best value
(`initial_value_threshold` if supplied, otherwise the losing infinity); a
`save_freq` that is neither the string epoch marker nor an int raises
ValueError (lines 147-151). -/
def init_checkpoint (filepath : List TItem) (monitor : String)
    (save_best_only : Bool) (mode : String) (save_freq : PyFreq)
    (initial_value_threshold : Option Rat) : Except String Config :=
  let mode1 := if mode = "auto" || mode = "min" || mode = "max" then mode else "auto"
  let best := initial_value_threshold.map finQ
  let opBest : CmpOp × XQ :=
    if mode1 = "min" then (.lt, best.getD posInfQ)
    else if mode1 = "max" then (.gt, best.getD negInfQ)
    else if autoGreater monitor then (.gt, best.getD negInfQ)
    else (.lt, best.getD posInfQ)
  if save_freq = .otherF then
    .error "Unrecognized save_freq"
  else
    .ok { filepath := filepath, monitor := monitor,
          save_best_only := save_best_only, op := opBest.1, best0 := opBest.2,
          save_freq := save_freq, period := 1 }

/-! ## Step scheduler (`_should_save_on_batch`) -/

/-- The scheduler's mutable counters: `_batches_seen_since_last_saving` and
`_last_batch_seen`, both initialised to 0 in `__init__`. -/
structure BSt where
  batches_seen_since_last_saving : Nat
  last_batch_seen : Nat
deriving DecidableEq, Repr

def initBSt : BSt := ⟨0, 0⟩

/-- `ModelCheckpointYolov4._should_save_on_batch` (source lines 195-210):
returns the decision and the updated counters.  In epoch mode it returns
False immediately.  A batch index at most the last seen one signals a new
epoch and contributes `batch + 1` observed steps; otherwise the difference
is added.  On trigger the step counter resets to zero. -/
def should_save_on_batch (save_freq : PyFreq) (st : BSt) (batch : Nat) :
    Bool × BSt :=
  match save_freq with
  | .epochF => (false, st)
  | .otherF => (false, st)
  | .intF n =>
      let add : Nat :=
        if batch ≤ st.last_batch_seen then batch + 1
        else batch - st.last_batch_seen
      let seen := st.batches_seen_since_last_saving + add
      if n ≤ (seen : Int) then (true, ⟨0, batch⟩)
      else (false, ⟨seen, batch⟩)

/-- Feed a list of batch indices through the scheduler, collecting the
decisions (the trace of `on_train_batch_end` calls within and across
epochs). -/
def run_batches (save_freq : PyFreq) : BSt → List Nat → List Bool × BSt
  | st, [] => ([], st)
  | st, b :: bs =>
      let r := should_save_on_batch save_freq st b
      let rest := run_batches save_freq r.2 bs
      (r.1 :: rest.1, rest.2)

example : (run_batches (.intF 3) initBSt [0, 1, 2, 0]).1
    = [false, false, true, false] := by decide
example : (run_batches (.intF 3) initBSt [0, 1, 2, 0]).2 = ⟨1, 0⟩ := by decide

/-! ## Saving (`_save_model`) and the best-value tracker -/

/-- The tracker's mutable state: the running best value and the
epochs-since-last-save counter. -/
structure TState where
  best : XQ
  epochs_since_last_save : Nat
deriving Repr

def isIntFreq : PyFreq → Bool
  | .intF _ => true
  | _ => false

/-- `ModelCheckpointYolov4._save_model` (source lines 212-318), modelled up
to the actual byte-level write: the result is the updated tracker state and
the path written to (`none` when the event produced no write).  The path is
resolved before the metric is consulted, so a formatting KeyError
propagates (`.error`).  Under `save_best_only`, a monitored metric missing
from the logs only logs a warning and skips; an available metric is saved
and committed exactly when `monitor_op` reports an improvement over the
stored best. -/
def save_model (cfg : Config) (st : TState) (epoch : Nat) (batch : Option Nat)
    (logs : List (String × Rat)) : Except String (TState × Option String) :=
  if isIntFreq cfg.save_freq || decide (cfg.period ≤ st.epochs_since_last_save) then
    let st1 : TState := { st with epochs_since_last_save := 0 }
    match get_file_path cfg.filepath epoch batch logs with
    | .error e => .error e
    | .ok fp =>
        if cfg.save_best_only then
          match logs.lookup cfg.monitor with
          | none => .ok (st1, none)
          | some current =>
              if monitor_op cfg.op (finQ current) st1.best then
                .ok ({ st1 with best := finQ current }, some fp)
              else
                .ok (st1, none)
        else
          .ok (st1, some fp)
  else
    .ok (st, none)

/-- One save decision's transient input: epoch index, optional batch index,
and the logs mapping. -/
structure SaveEvent where
  epoch : Nat
  batch : Option Nat
  logs : List (String × Rat)

/-- A session: feed save events through `save_model`; an event whose path
resolution raises aborts the rest of the session (state as of the failure is
kept for observation). -/
def run_events (cfg : Config) : TState → List SaveEvent → TState
  | st, [] => st
  | st, e :: es =>
      match save_model cfg st e.epoch e.batch e.logs with
      | .error _ => st
      | .ok (st', _) => run_events cfg st' es

/-! ## Recovery scan (`_get_most_recently_modified_file_matching_pattern`) -/

/-- Python's lexicographic comparison of strings as sequences of code
points: the first differing position decides, and a proper prefix is
smaller. -/
def strLtB : List Char → List Char → Bool
  | _, [] => false
  | [], _ :: _ => true
  | a :: as, b :: bs =>
      if a.toNat < b.toNat then true
      else if b.toNat < a.toNat then false
      else strLtB as bs

/-- Python's `s < t` on file paths. -/
def pyStrLt (s t : String) : Bool := strLtB s.data t.data

/-- The scan's loop state (source lines 415-418): the latest modification
time seen, the path that first attained it, how many matching files share
it, and the largest matching path seen so far. -/
structure ScanSt where
  latest_mod_time : Nat
  file_path_with_latest_mod_time : Option String
  n_file_with_latest_mod_time : Nat
  file_path_with_largest_file_name : Option String
deriving DecidableEq, Repr

/-- The largest-file-name update of source lines 426-429: keep whichever of
the current record and the new path is larger. -/
def omaxP (a : Option String) (p : String) : Option String :=
  match a with
  | none => some p
  | some q => if pyStrLt q p then some p else some q

/-- One iteration of the scan loop (source lines 421-441) over a matching
directory entry with path `file_path` and modification time `mod_time`. -/
def scan_step (st : ScanSt) (file_path : String) (mod_time : Nat) : ScanSt :=
  let largest : Option String :=
    omaxP st.file_path_with_largest_file_name file_path
  if st.latest_mod_time < mod_time then
    ⟨mod_time, some file_path, 1, largest⟩
  else if mod_time = st.latest_mod_time then
    ⟨st.latest_mod_time, st.file_path_with_latest_mod_time,
      st.n_file_with_latest_mod_time + 1, largest⟩
  else
    ⟨st.latest_mod_time, st.file_path_with_latest_mod_time,
      st.n_file_with_latest_mod_time, largest⟩

/-- The whole scan loop over the pattern-matching directory entries, from
the initial state of source lines 415-418. -/
def scan_dir (entries : List (String × Nat)) : ScanSt :=
  entries.foldl (fun st e => scan_step st e.1 e.2) ⟨0, none, 0, none⟩

/-- The selection after the loop (source lines 443-449): the sole latest
file if the tie counter is exactly one, otherwise the largest matching
path. -/
def locate_scan (entries : List (String × Nat)) : Option String :=
  let st := scan_dir entries
  if st.n_file_with_latest_mod_time = 1 then st.file_path_with_latest_mod_time
  else st.file_path_with_largest_file_name

example : locate_scan [("f.batch03epoch02", 5), ("f.batch02epoch02", 5),
    ("f.batch01epoch01", 5)] = some "f.batch03epoch02" := by decide
example : locate_scan [("a", 2), ("b", 2), ("z", 1)] = some "z" := by decide
example : locate_scan [] = none := by decide

/-! ## Lemmas about the recovery scan -/

/-- The largest modification time among the matching entries (floored at the
loop's initial value 0). -/
def maxT (l : List (String × Nat)) : Nat := l.foldl (fun a e => max a e.2) 0

/-- The largest path among the matching entries. -/
def maxP (l : List (String × Nat)) : Option String :=
  l.foldl (fun a e => omaxP a e.1) none

/-- How many matching entries attain the largest modification time. -/
def countMax (l : List (String × Nat)) : Nat :=
  (l.filter (fun e => decide (e.2 = maxT l))).length

/-- The path of the first entry attaining the largest modification time
(none when no entry beats the loop's initial time 0). -/
def firstMax (l : List (String × Nat)) : Option String :=
  if maxT l = 0 then none
  else (l.find? (fun e => decide (e.2 = maxT l))).map (fun e => e.1)

theorem strLtB_irrefl (l : List Char) : strLtB l l = false := by
  induction l with
  | nil => rfl
  | cons a as ih => simp [strLtB, ih]

theorem strLtB_trans :
    ∀ (a b c : List Char), strLtB a b = true → strLtB b c = true →
      strLtB a c = true := by
  intro a
  induction a with
  | nil =>
      intro b c h1 h2
      cases b with
      | nil => simp [strLtB] at h1
      | cons x xs =>
          cases c with
          | nil => simp [strLtB] at h2
          | cons y ys => simp [strLtB]
  | cons a as ih =>
      intro b c h1 h2
      cases b with
      | nil => simp [strLtB] at h1
      | cons x xs =>
          cases c with
          | nil => simp [strLtB] at h2
          | cons y ys =>
              simp only [strLtB] at h1 h2 ⊢
              split at h1
              · rename_i hax
                split at h2
                · rename_i hxy
                  rw [if_pos (by omega)]
                · split at h2
                  · simp at h2
                  · rename_i hxy hyx
                    rw [if_pos (by omega)]
              · split at h1
                · simp at h1
                · rename_i hax hxa
                  split at h2
                  · rename_i hxy
                    rw [if_pos (by omega)]
                  · split at h2
                    · simp at h2
                    · rename_i hxy hyx
                      rw [if_neg (by omega), if_neg (by omega)]
                      exact ih xs ys h1 h2

theorem strLtB_false_cases :
    ∀ (a b : List Char), strLtB a b = false → strLtB b a = true ∨ a = b := by
  intro a
  induction a with
  | nil =>
      intro b h
      cases b with
      | nil => right; rfl
      | cons y ys => simp [strLtB] at h
  | cons x xs ih =>
      intro b h
      cases b with
      | nil => left; rfl
      | cons y ys =>
          simp only [strLtB] at h ⊢
          split at h
          · simp at h
          · split at h
            · rename_i hxy hyx
              left
              rw [if_pos hyx]
            · rename_i hxy hyx
              rcases ih ys h with h' | h'
              · left
                rw [if_neg hyx, if_neg hxy]
                exact h'
              · right
                have hcx : x.toNat = x.val.toNat := rfl
                have hcy : y.toNat = y.val.toNat := rfl
                have hx : x = y := Char.ext (UInt32.ext (by omega))
                rw [hx, h']

theorem pyStrLt_irrefl (s : String) : pyStrLt s s = false := strLtB_irrefl s.data

theorem pyStrLt_trans {s t u : String} (h1 : pyStrLt s t = true)
    (h2 : pyStrLt t u = true) : pyStrLt s u = true :=
  strLtB_trans s.data t.data u.data h1 h2

theorem pyStrLt_false_cases {s t : String} (h : pyStrLt s t = false) :
    pyStrLt t s = true ∨ s = t := by
  rcases strLtB_false_cases s.data t.data h with h' | h'
  · left; exact h'
  · right
    cases s; cases t; simp_all

theorem maxT_aux (l : List (String × Nat)) :
    ∀ a : Nat, l.foldl (fun acc e => max acc e.2) a = max a (maxT l) := by
  induction l with
  | nil => intro a; simp [maxT]
  | cons e l ih =>
      intro a
      simp only [maxT, List.foldl_cons] at *
      rw [ih (max a e.2), ih (max 0 e.2)]
      omega

theorem maxT_cons (e : String × Nat) (l : List (String × Nat)) :
    maxT (e :: l) = max (max 0 e.2) (maxT l) := by
  simp only [maxT, List.foldl_cons]
  exact maxT_aux l (max 0 e.2)

theorem maxT_ub : ∀ (l : List (String × Nat)), ∀ x ∈ l, x.2 ≤ maxT l := by
  intro l
  induction l with
  | nil => intro x hx; cases hx
  | cons e l ih =>
      intro x hx
      have hm := maxT_cons e l
      rcases List.mem_cons.mp hx with rfl | hx
      · omega
      · have := ih x hx; omega

theorem maxT_attained :
    ∀ l : List (String × Nat), maxT l = 0 ∨ ∃ x ∈ l, x.2 = maxT l := by
  intro l
  induction l with
  | nil => left; rfl
  | cons e l ih =>
      have hm := maxT_cons e l
      rcases ih with h0 | ⟨x, hx, hxe⟩
      · by_cases he : e.2 = 0
        · left; omega
        · right; exact ⟨e, List.mem_cons_self e l, by omega⟩
      · by_cases hle : maxT l ≤ e.2
        · right; exact ⟨e, List.mem_cons_self e l, by omega⟩
        · right; exact ⟨x, List.mem_cons_of_mem e hx, by omega⟩

theorem maxT_append (l : List (String × Nat)) (e : String × Nat) :
    maxT (l ++ [e]) = max (maxT l) e.2 := by
  simp only [maxT, List.foldl_append, List.foldl_cons, List.foldl_nil]

theorem maxP_append (l : List (String × Nat)) (e : String × Nat) :
    maxP (l ++ [e]) = omaxP (maxP l) e.1 := by
  simp only [maxP, List.foldl_append, List.foldl_cons, List.foldl_nil]

theorem scan_dir_append (l : List (String × Nat)) (e : String × Nat) :
    scan_dir (l ++ [e]) = scan_step (scan_dir l) e.1 e.2 := by
  simp only [scan_dir, List.foldl_append, List.foldl_cons, List.foldl_nil]

/-- The scan loop computes exactly: the largest modification time, the first
path attaining it (none when nothing beats the initial time 0), the number
of entries attaining it, and the largest path overall. -/
theorem scan_dir_spec :
    ∀ l : List (String × Nat),
      scan_dir l = ⟨maxT l, firstMax l, countMax l, maxP l⟩ := by
  intro l
  induction l using List.reverseRecOn with
  | nil => rfl
  | append_singleton l e ih =>
      obtain ⟨p, t⟩ := e
      rw [scan_dir_append, ih]
      have hT := maxT_append l (p, t)
      have hP := maxP_append l (p, t)
      simp only [scan_step]
      rcases Nat.lt_trichotomy (maxT l) t with h | h | h
      · rw [if_pos h]
        simp only [ScanSt.mk.injEq]
        have hT' : maxT (l ++ [(p, t)]) = t := by simp at hT; omega
        have hfil : l.filter (fun x => decide (x.2 = maxT (l ++ [(p, t)]))) = [] := by
          apply List.filter_eq_nil_iff.mpr
          intro a ha
          have := maxT_ub l a ha
          simp only [decide_eq_true_eq]
          omega
        have hfind :
            l.find? (fun x => decide (x.2 = maxT (l ++ [(p, t)]))) = none := by
          apply List.find?_eq_none.mpr
          intro a ha
          have := maxT_ub l a ha
          simp only [decide_eq_true_eq]
          omega
        refine ⟨by omega, ?_, ?_, by rw [hP]⟩
        · rw [firstMax, if_neg (by omega), List.find?_append, hfind,
            Option.none_or, List.find?_cons_of_pos _ (by simp [hT'])]
          rfl
        · rw [countMax, List.filter_append, hfil]
          simp [hT']
      · rw [if_neg (by omega), if_pos (by omega)]
        simp only [ScanSt.mk.injEq]
        have hT' : maxT (l ++ [(p, t)]) = maxT l := by simp at hT; omega
        refine ⟨by omega, ?_, ?_, by rw [hP]⟩
        · by_cases h0 : maxT l = 0
          · rw [firstMax, firstMax, if_pos (by omega), if_pos (by omega)]
          · rw [firstMax, firstMax, if_neg (by omega), if_neg (by omega), hT',
              List.find?_append]
            rcases maxT_attained l with hc | ⟨x, hx, hxe⟩
            · exact absurd hc h0
            · have hsome : (l.find? (fun x => decide (x.2 = maxT l))).isSome := by
                rw [List.find?_isSome]
                exact ⟨x, hx, by simp [hxe]⟩
              obtain ⟨y, hy⟩ := Option.isSome_iff_exists.mp hsome
              rw [hy]
              rfl
        · rw [countMax, countMax, List.filter_append, hT']
          simp [h]
      · rw [if_neg (by omega), if_neg (by omega)]
        simp only [ScanSt.mk.injEq]
        have hT' : maxT (l ++ [(p, t)]) = maxT l := by simp at hT; omega
        refine ⟨by omega, ?_, ?_, by rw [hP]⟩
        · rw [firstMax, firstMax, if_neg (by omega), if_neg (by omega), hT',
            List.find?_append, List.find?_cons_of_neg _ (by simp; omega)]
          simp
        · rw [countMax, countMax, List.filter_append, hT']
          have : [(p, t)].filter (fun x => decide (x.2 = maxT l)) = [] := by
            simp
            omega
          rw [this]
          simp

theorem maxP_go (l : List (String × Nat)) :
    ∀ p : String, ∃ r, l.foldl (fun a e => omaxP a e.1) (some p) = some r ∧
      (r = p ∨ ∃ x ∈ l, x.1 = r) ∧ pyStrLt r p = false ∧
      ∀ x ∈ l, pyStrLt r x.1 = false := by
  induction l with
  | nil =>
      intro p
      exact ⟨p, rfl, Or.inl rfl, pyStrLt_irrefl p, by intro x hx; cases hx⟩
  | cons e l ih =>
      intro p
      simp only [List.foldl_cons]
      cases hpe : pyStrLt p e.1 with
      | true =>
          rw [show omaxP (some p) e.1 = some e.1 by simp [omaxP, hpe]]
          obtain ⟨r, hr, hmem, hre, hall⟩ := ih e.1
          refine ⟨r, hr, ?_, ?_, ?_⟩
          · rcases hmem with rfl | ⟨x, hx, hxr⟩
            · exact Or.inr ⟨e, List.mem_cons_self e l, rfl⟩
            · exact Or.inr ⟨x, List.mem_cons_of_mem e hx, hxr⟩
          · cases hcase : pyStrLt r p with
            | false => rfl
            | true =>
                have := pyStrLt_trans hcase hpe
                rw [this] at hre
                exact hre
          · intro x hx
            rcases List.mem_cons.mp hx with rfl | hx
            · exact hre
            · exact hall x hx
      | false =>
          rw [show omaxP (some p) e.1 = some p by simp [omaxP, hpe]]
          obtain ⟨r, hr, hmem, hrp, hall⟩ := ih p
          refine ⟨r, hr, ?_, hrp, ?_⟩
          · rcases hmem with rfl | ⟨x, hx, hxr⟩
            · exact Or.inl rfl
            · exact Or.inr ⟨x, List.mem_cons_of_mem e hx, hxr⟩
          · intro x hx
            rcases List.mem_cons.mp hx with heq | hx
            · rw [heq]
              cases hcase : pyStrLt r e.1 with
              | false => rfl
              | true =>
                  rcases pyStrLt_false_cases hpe with h' | h'
                  · have h2 := pyStrLt_trans hcase h'
                    rw [h2] at hrp
                    exact hrp
                  · rw [h'] at hrp
                    rw [hcase] at hrp
                    exact hrp
            · exact hall x hx

/-- The largest-path record over a nonempty entry list is a path of some
entry and is not less than any entry's path. -/
theorem maxP_greatest (l : List (String × Nat)) (hne : l ≠ []) :
    ∃ r, maxP l = some r ∧ (∃ x ∈ l, x.1 = r) ∧
      ∀ x ∈ l, pyStrLt r x.1 = false := by
  cases l with
  | nil => exact absurd rfl hne
  | cons e l =>
      have h0 : omaxP none e.1 = some e.1 := rfl
      obtain ⟨r, hr, hmem, hre, hall⟩ := maxP_go l e.1
      refine ⟨r, ?_, ?_, ?_⟩
      · simp only [maxP, List.foldl_cons, h0]
        exact hr
      · rcases hmem with rfl | ⟨x, hx, hxr⟩
        · exact ⟨e, List.mem_cons_self e l, rfl⟩
        · exact ⟨x, List.mem_cons_of_mem e hx, hxr⟩
      · intro x hx
        rcases List.mem_cons.mp hx with rfl | hx
        · exact hre
        · exact hall x hx

theorem locate_scan_eq (l : List (String × Nat)) :
    locate_scan l = if countMax l = 1 then firstMax l else maxP l := by
  unfold locate_scan
  rw [scan_dir_spec]

/-- C2 counterexample: with matching entries a and b tied for the latest
modification time 2, and an older entry z, the lexicographically greatest
path among the tied entries is b, but the scan returns z (the largest path
among ALL matching entries), so the claim as stated is false. -/
theorem c2_locator_tiebreak_counterexample :
    locate_scan [("a", 2), ("b", 2), ("z", 1)] = some "z" ∧
      locate_scan [("a", 2), ("b", 2), ("z", 1)] ≠ some "b" := by
  constructor
  · decide
  · decide

/-- C2 (amended): for every directory scan over pattern-matching entries
with positive modification times, the entry with the strictly latest
modification time is returned when it is unique; when several entries tie
for the latest modification time, the entry returned is the one with the
lexicographically greatest full path among ALL matching entries (not merely
among the tied ones); in particular on f.batch03epoch02, f.batch02epoch02,
f.batch01epoch01 all sharing one modification time, f.batch03epoch02 is
returned. -/
theorem c2_locator_tiebreak (entries : List (String × Nat))
    (hpos : ∀ e ∈ entries, 0 < e.2) :
    (countMax entries = 1 →
      ∀ e ∈ entries, e.2 = maxT entries → locate_scan entries = some e.1) ∧
    (2 ≤ countMax entries →
      ∃ p, locate_scan entries = some p ∧ (∃ x ∈ entries, x.1 = p) ∧
        ∀ x ∈ entries, pyStrLt p x.1 = false) ∧
    locate_scan [("f.batch03epoch02", 5), ("f.batch02epoch02", 5),
      ("f.batch01epoch01", 5)] = some "f.batch03epoch02" := by
  refine ⟨?_, ?_, by decide⟩
  · intro hcount e he hmax
    have hT0 : maxT entries ≠ 0 := by
      have := hpos e he
      omega
    have hloc : locate_scan entries = firstMax entries := by
      rw [locate_scan_eq, if_pos hcount]
    rw [hloc, firstMax, if_neg hT0]
    have hpred : (fun x => decide (x.2 = maxT entries)) e = true := by
      simp [hmax]
    have hefil : e ∈ entries.filter (fun x => decide (x.2 = maxT entries)) :=
      List.mem_filter.mpr ⟨he, hpred⟩
    rw [countMax] at hcount
    obtain ⟨u, hu⟩ := List.length_eq_one.mp hcount
    have hsome :
        (entries.find? (fun x => decide (x.2 = maxT entries))).isSome := by
      rw [List.find?_isSome]
      exact ⟨e, he, hpred⟩
    obtain ⟨y, hy⟩ := Option.isSome_iff_exists.mp hsome
    have hpy := List.find?_some hy
    have hyfil : y ∈ entries.filter (fun x => decide (x.2 = maxT entries)) :=
      List.mem_filter.mpr ⟨List.mem_of_find?_eq_some hy, hpy⟩
    rw [hu] at hefil hyfil
    have hey : y = e := by
      rcases List.mem_singleton.mp hefil with rfl
      exact List.mem_singleton.mp hyfil
    rw [hy, hey]
    rfl
  · intro hcount
    have hne : entries ≠ [] := by
      intro h
      rw [h] at hcount
      simp [countMax] at hcount
    have hnot1 : ¬ countMax entries = 1 := by omega
    have hloc : locate_scan entries = maxP entries := by
      rw [locate_scan_eq, if_neg hnot1]
    obtain ⟨r, hr, hmem, hall⟩ := maxP_greatest entries hne
    exact ⟨r, by rw [hloc, hr], hmem, hall⟩

/-- C2 witness: the amended theorem applied to the three-file example. -/
theorem c2_locator_tiebreak_witness :
    ∃ p, locate_scan [("f.batch03epoch02", 5), ("f.batch02epoch02", 5),
      ("f.batch01epoch01", 5)] = some p ∧
      (∃ x ∈ [("f.batch03epoch02", 5), ("f.batch02epoch02", 5),
        ("f.batch01epoch01", 5)], x.1 = p) ∧
      ∀ x ∈ [("f.batch03epoch02", 5), ("f.batch02epoch02", 5),
        ("f.batch01epoch01", 5)], pyStrLt p x.1 = false :=
  (c2_locator_tiebreak [("f.batch03epoch02", 5), ("f.batch02epoch02", 5),
    ("f.batch01epoch01", 5)] (by decide)).2.1 (by decide)

/-! ## Lemmas about path-template resolution -/

/-- A template item is covered by a substitution mapping when it is a
literal or its placeholder name has a value. -/
def coveredItem (m : List (String × FmtVal)) : TItem → Bool
  | .lit _ => true
  | .hole nm _ => (m.lookup nm).isSome

theorem pyFormat_ok (ts : List TItem) (m : List (String × FmtVal))
    (h : ∀ t ∈ ts, coveredItem m t = true) : ∃ s, pyFormat ts m = .ok s := by
  induction ts with
  | nil => exact ⟨"", rfl⟩
  | cons t ts ih =>
      cases t with
      | lit s =>
          obtain ⟨r, hr⟩ := ih (fun t ht => h t (List.mem_cons_of_mem _ ht))
          exact ⟨s ++ r, by simp [pyFormat, hr, Except.map]⟩
      | hole nm w =>
          have hc := h _ (List.mem_cons_self _ _)
          simp only [coveredItem] at hc
          obtain ⟨v, hv⟩ := Option.isSome_iff_exists.mp hc
          obtain ⟨r, hr⟩ := ih (fun t ht => h t (List.mem_cons_of_mem _ ht))
          exact ⟨renderFmt w v ++ r, by simp [pyFormat, hv, hr, Except.map]⟩

theorem pyFormat_missing (ts : List TItem) (m : List (String × FmtVal))
    (h : ∃ t ∈ ts, coveredItem m t = false) :
    ∃ nm w, TItem.hole nm w ∈ ts ∧ m.lookup nm = none ∧
      pyFormat ts m = .error nm := by
  induction ts with
  | nil =>
      obtain ⟨t, ht, _⟩ := h
      cases ht
  | cons t ts ih =>
      cases t with
      | lit s =>
          have h' : ∃ t ∈ ts, coveredItem m t = false := by
            obtain ⟨t, ht, hc⟩ := h
            rcases List.mem_cons.mp ht with rfl | ht
            · simp [coveredItem] at hc
            · exact ⟨t, ht, hc⟩
          obtain ⟨nm, w, hmem, hlk, herr⟩ := ih h'
          exact ⟨nm, w, List.mem_cons_of_mem _ hmem, hlk,
            by simp [pyFormat, herr, Except.map]⟩
      | hole nm w =>
          cases hlk : m.lookup nm with
          | none =>
              exact ⟨nm, w, List.mem_cons_self _ _, hlk,
                by simp [pyFormat, hlk]⟩
          | some v =>
              have h' : ∃ t ∈ ts, coveredItem m t = false := by
                obtain ⟨t, ht, hc⟩ := h
                rcases List.mem_cons.mp ht with rfl | ht
                · simp [coveredItem, hlk] at hc
                · exact ⟨t, ht, hc⟩
              obtain ⟨nm', w', hmem, hlk', herr⟩ := ih h'
              exact ⟨nm', w', List.mem_cons_of_mem _ hmem, hlk',
                by simp [pyFormat, hlk, herr, Except.map]⟩

theorem logsKw_lookup (logs : List (String × Rat)) (k : String) :
    (logsKw logs).lookup k = (logs.lookup k).map (fun q => FmtVal.ratV q) := by
  induction logs with
  | nil => rfl
  | cons p logs ih =>
      simp only [logsKw, List.map_cons, List.lookup]
      cases hk : k == p.1
      · simp only [logsKw] at ih
        simp [hk, ih]
      · simp [hk]

theorem kwArgs_lookup_epoch (epoch : Nat) (batch : Option Nat)
    (logs : List (String × Rat)) :
    (kwArgs epoch batch logs).lookup "epoch" = some (.intV (epoch + 1)) := by
  cases batch with
  | none => rfl
  | some b =>
      simp only [kwArgs]
      cases h : (logs.lookup "batch").isSome <;> simp [List.lookup]

theorem kwArgs_lookup_batch (epoch b : Nat) (logs : List (String × Rat))
    (h : logs.lookup "batch" = none) :
    (kwArgs epoch (some b) logs).lookup "batch" = some (.intV (b + 1)) := by
  simp [kwArgs, h, List.lookup]

theorem kwArgs_none_lookup_batch (epoch : Nat) (logs : List (String × Rat))
    (h : logs.lookup "batch" = none) :
    (kwArgs epoch none logs).lookup "batch" = none := by
  simp [kwArgs, List.lookup, logsKw_lookup, h]

/-! ## Claim theorems -/

/-- C1: in step mode with frequency n, a call contributes a positive step
delta (index + 1 on epoch rollover, the index difference otherwise), the
scheduler triggers exactly when the cumulative count since the last trigger
reaches or exceeds n, a trigger resets the counter to zero with no excess
carried forward, and the concrete run with n = 3 over batch indices
0, 1, 2 then 0 in a new epoch triggers exactly once, on the third call. -/
theorem c1_step_scheduler (n : Int) (st : BSt) (batch : Nat) :
    (1 ≤ (if batch ≤ st.last_batch_seen then (batch : Int) + 1
          else (batch : Int) - (st.last_batch_seen : Int))) ∧
    ((should_save_on_batch (.intF n) st batch).1 = true ↔
      n ≤ (st.batches_seen_since_last_saving : Int) +
        (if batch ≤ st.last_batch_seen then (batch : Int) + 1
         else (batch : Int) - (st.last_batch_seen : Int))) ∧
    ((should_save_on_batch (.intF n) st batch).1 = true →
      (should_save_on_batch (.intF n) st
        batch).2.batches_seen_since_last_saving = 0) ∧
    (run_batches (.intF 3) initBSt [0, 1, 2, 0]).1
      = [false, false, true, false] := by
  refine ⟨?_, ?_, ?_, by decide⟩
  · split <;> omega
  · simp only [should_save_on_batch]
    by_cases hble : batch ≤ st.last_batch_seen
    · rw [if_pos hble, if_pos hble]
      by_cases hn : n ≤ ((st.batches_seen_since_last_saving + (batch + 1) : Nat) : Int)
      · rw [if_pos hn]
        constructor
        · intro _
          push_cast at hn ⊢
          omega
        · intro _
          rfl
      · rw [if_neg hn]
        constructor
        · intro h
          simp at h
        · intro h
          push_cast at hn h
          omega
    · rw [if_neg hble, if_neg hble]
      by_cases hn : n ≤ ((st.batches_seen_since_last_saving +
          (batch - st.last_batch_seen) : Nat) : Int)
      · rw [if_pos hn]
        constructor
        · intro _
          push_cast at hn ⊢
          omega
        · intro _
          rfl
      · rw [if_neg hn]
        constructor
        · intro h
          simp at h
        · intro h
          push_cast at hn h
          omega
  · simp only [should_save_on_batch]
    by_cases hble : batch ≤ st.last_batch_seen <;>
      [rw [if_pos hble]; rw [if_neg hble]] <;>
      split <;> simp_all

/-- C1 witness: the theorem applied at n = 3, the initial counters and
batch index 2. -/
theorem c1_step_scheduler_witness :
    ((should_save_on_batch (.intF 3) ⟨2, 1⟩ 2).1 = true ↔
      (3 : Int) ≤ (2 : Nat) +
        (if 2 ≤ (⟨2, 1⟩ : BSt).last_batch_seen then ((2 : Nat) : Int) + 1
         else ((2 : Nat) : Int) - (((⟨2, 1⟩ : BSt).last_batch_seen : Nat) : Int))) ∧
    (run_batches (.intF 3) initBSt [0, 1, 2, 0]).1
      = [false, false, true, false] :=
  ⟨(c1_step_scheduler 3 ⟨2, 1⟩ 2).2.1, (c1_step_scheduler 3 ⟨2, 1⟩ 2).2.2.2⟩

/-- C5 counterexample: save_freq = 0 is neither the epoch-granularity
marker nor a positive integer, yet construction completes without error,
contradicting the claim that only the epoch marker or a positive integer
is accepted. -/
theorem c5_save_freq_counterexample :
    ∃ c, init_checkpoint [] "val_loss" false "auto" (.intF 0) none
      = .ok c := ⟨_, rfl⟩

/-- C5 (amended): construction raises exactly when saveFrequency is neither
the epoch marker nor an int; every int — including zero and negative
values — is accepted. -/
theorem c5_save_freq_validation (fp : List TItem) (monitor : String)
    (sbo : Bool) (mode : String) (fr : PyFreq) (th : Option Rat) :
    (∃ c, init_checkpoint fp monitor sbo mode fr th = .ok c) ↔
      fr ≠ .otherF := by
  unfold init_checkpoint
  cases fr <;> simp

/-- C5 witness: the amended theorem applied at a negative integer
frequency. -/
theorem c5_save_freq_validation_witness :
    (∃ c, init_checkpoint [] "val_loss" false "auto" (.intF (-5)) none
      = .ok c) ↔ (PyFreq.intF (-5)) ≠ .otherF :=
  c5_save_freq_validation [] "val_loss" false "auto" (.intF (-5)) none

/-- C7: under mode auto the comparison is resolved once, at construction,
from the monitored metric's name: a name passing the acc-substring /
fmeasure-starts test resolves to greater-than with initial best -inf when
no threshold is given, every other name to less-than with initial best
+inf; accuracy passes the test, val_loss does not. -/
theorem c7_auto_mode_resolution (fp : List TItem) (monitor : String)
    (sbo : Bool) (fr : PyFreq) (hfr : fr ≠ .otherF) :
    (∃ c, init_checkpoint fp monitor sbo "auto" fr none = .ok c ∧
      c.op = (if autoGreater monitor then CmpOp.gt else CmpOp.lt) ∧
      c.best0 = (if autoGreater monitor then negInfQ else posInfQ)) ∧
    autoGreater "accuracy" = true ∧ autoGreater "val_loss" = false := by
  refine ⟨?_, by decide, by decide⟩
  unfold init_checkpoint
  rw [if_neg hfr]
  by_cases hg : autoGreater monitor
  · exact ⟨_, rfl, by simp [hg], by simp [hg]⟩
  · exact ⟨_, rfl, by simp [hg], by simp [hg]⟩

/-- C7 witness: the theorem applied with the accuracy monitor and epoch
frequency. -/
theorem c7_auto_mode_resolution_witness :
    (∃ c, init_checkpoint [] "accuracy" false "auto" .epochF none = .ok c ∧
      c.op = (if autoGreater "accuracy" then CmpOp.gt else CmpOp.lt) ∧
      c.best0 = (if autoGreater "accuracy" then negInfQ else posInfQ)) ∧
    autoGreater "accuracy" = true ∧ autoGreater "val_loss" = false :=
  c7_auto_mode_resolution [] "accuracy" false .epochF (by decide)

/-- C10: a comparison-mode string other than auto, min and max raises no
error: construction behaves exactly as with mode auto (the warned fallback)
and completes normally whenever save_freq is valid. -/
theorem c10_unknown_mode_fallback (fp : List TItem) (monitor : String)
    (sbo : Bool) (mode : String) (fr : PyFreq) (th : Option Rat)
    (h1 : mode ≠ "auto") (h2 : mode ≠ "min") (h3 : mode ≠ "max") :
    init_checkpoint fp monitor sbo mode fr th
      = init_checkpoint fp monitor sbo "auto" fr th ∧
    (fr ≠ .otherF →
      ∃ c, init_checkpoint fp monitor sbo mode fr th = .ok c) := by
  constructor
  · unfold init_checkpoint
    simp [h1, h2, h3]
  · intro hfr
    unfold init_checkpoint
    rw [if_neg hfr]
    exact ⟨_, rfl⟩

/-- C10 witness: the theorem applied at the unknown mode string maximum. -/
theorem c10_unknown_mode_fallback_witness :
    init_checkpoint [] "val_loss" false "maximum" .epochF none
      = init_checkpoint [] "val_loss" false "auto" .epochF none ∧
    (PyFreq.epochF ≠ .otherF →
      ∃ c, init_checkpoint [] "val_loss" false "maximum" .epochF none
        = .ok c) :=
  c10_unknown_mode_fallback [] "val_loss" false "maximum" .epochF none
    (by decide) (by decide) (by decide)

/-- C6: the substitution mapping built for a save event maps the epoch
placeholder to the internal 0-indexed epoch plus one, and — when a batch
index is present and the logs do not already carry one — the batch
placeholder to the internal batch plus one; resolving the template with
literal ckpt- then a width-2 epoch placeholder then .bin at internal
epoch 4 yields ckpt-05.bin. -/
theorem c6_one_indexed_substitution (epoch : Nat) (batch : Option Nat)
    (logs : List (String × Rat)) :
    (kwArgs epoch batch logs).lookup "epoch" = some (.intV (epoch + 1)) ∧
    (∀ b, batch = some b → logs.lookup "batch" = none →
      (kwArgs epoch batch logs).lookup "batch" = some (.intV (b + 1))) ∧
    get_file_path [.lit "ckpt-", .hole "epoch" 2, .lit ".bin"] 4 none []
      = .ok "ckpt-05.bin" := by
  refine ⟨kwArgs_lookup_epoch epoch batch logs, ?_, rfl⟩
  intro b hb hlk
  rw [hb]
  exact kwArgs_lookup_batch epoch b logs hlk

/-- C6 witness: the theorem applied at epoch 4 with batch 2 and empty
logs. -/
theorem c6_one_indexed_substitution_witness :
    (kwArgs 4 (some 2) []).lookup "epoch" = some (.intV 5) ∧
    (kwArgs 4 (some 2) []).lookup "batch" = some (.intV 3) ∧
    get_file_path [.lit "ckpt-", .hole "epoch" 2, .lit ".bin"] 4 none []
      = .ok "ckpt-05.bin" :=
  ⟨(c6_one_indexed_substitution 4 (some 2) []).1,
    (c6_one_indexed_substitution 4 (some 2) []).2.1 2 rfl rfl,
    (c6_one_indexed_substitution 4 (some 2) []).2.2⟩

/-- C4 counterexample: an epoch-granularity save (no batch index) against a
template containing a batch placeholder does NOT succeed: the batch
placeholder is left out of the substitution mapping, so formatting raises a
missing-placeholder KeyError for batch instead of resolving a path. -/
theorem c4_epoch_save_counterexample :
    get_file_path [.lit "w-", .hole "epoch" 0, .lit "-", .hole "batch" 0,
      .lit ".h5"] 0 none [] = .error "batch" ∧
    ¬ ∃ s, get_file_path [.lit "w-", .hole "epoch" 0, .lit "-",
      .hole "batch" 0, .lit ".h5"] 0 none [] = .ok s := by
  constructor
  · rfl
  · rintro ⟨s, h⟩
    rw [show get_file_path [.lit "w-", .hole "epoch" 0, .lit "-",
      .hole "batch" 0, .lit ".h5"] 0 none [] = .error "batch" from rfl] at h
    exact Except.noConfusion h

/-- A template item that is the batch placeholder. -/
def isBatchHole : TItem → Bool
  | .hole nm _ => nm == "batch"
  | .lit _ => false

/-- C4 (amended): on an epoch-granularity save event the batch placeholder
receives no value from the event; if the template references the batch
placeholder, the logs do not supply one and every other placeholder is
covered, resolution fails with a missing-placeholder error naming batch;
resolution succeeds exactly on templates whose placeholders are all
covered by the epoch value and the logs. -/
theorem c4_epoch_save_batch_placeholder (tmpl : List TItem) (epoch : Nat)
    (logs : List (String × Rat)) :
    ((∃ w, TItem.hole "batch" w ∈ tmpl) → logs.lookup "batch" = none →
      (∀ t ∈ tmpl,
        (coveredItem (kwArgs epoch none logs) t || isBatchHole t) = true) →
      get_file_path tmpl epoch none logs = .error "batch") ∧
    ((∀ t ∈ tmpl, coveredItem (kwArgs epoch none logs) t = true) →
      ∃ s, get_file_path tmpl epoch none logs = .ok s) := by
  constructor
  · rintro ⟨w, hw⟩ hlk hcov
    have hbatch : (kwArgs epoch none logs).lookup "batch" = none :=
      kwArgs_none_lookup_batch epoch logs hlk
    have hmiss : ∃ t ∈ tmpl, coveredItem (kwArgs epoch none logs) t = false := by
      refine ⟨TItem.hole "batch" w, hw, ?_⟩
      simp [coveredItem, hbatch]
    obtain ⟨nm, w2, hmem, hlk2, herr⟩ :=
      pyFormat_missing tmpl (kwArgs epoch none logs) hmiss
    by_cases hnm : nm = "batch"
    · rw [hnm] at herr
      exact herr
    · have hc := hcov _ hmem
      simp only [coveredItem, isBatchHole, hlk2] at hc
      simp [hnm] at hc
  · intro hcov
    exact pyFormat_ok tmpl (kwArgs epoch none logs) hcov

/-- C4 witness: the amended theorem applied to the counterexample template
(error case) and to a batch-free template (success case). -/
theorem c4_epoch_save_batch_placeholder_witness :
    get_file_path [.lit "w-", .hole "epoch" 0, .lit "-", .hole "batch" 0,
      .lit ".h5"] 0 none [] = .error "batch" ∧
    ∃ s, get_file_path [.lit "w-", .hole "epoch" 0, .lit ".h5"] 0 none []
      = .ok s :=
  ⟨(c4_epoch_save_batch_placeholder [.lit "w-", .hole "epoch" 0, .lit "-",
      .hole "batch" 0, .lit ".h5"] 0 []).1 ⟨0, by decide⟩ rfl (by decide),
    (c4_epoch_save_batch_placeholder [.lit "w-", .hole "epoch" 0, .lit ".h5"]
      0 []).2 (by decide)⟩

/-- C9: a placeholder name that is supplied by neither the epoch value, nor
the batch value when present, nor the logs makes path resolution fail with
a missing-placeholder error; on any save attempt that reaches the saving
interval (step-frequency configs always do, epoch-frequency ones once the
period is reached — the exact gate of source line 222-224) save_model
propagates that error to its caller, and the failed save attempt writes
nothing. -/
theorem c9_missing_placeholder_aborts (cfg : Config) (st : TState)
    (epoch : Nat) (batch : Option Nat) (logs : List (String × Rat)) :
    ((∃ t ∈ cfg.filepath, coveredItem (kwArgs epoch batch logs) t = false) →
      ∃ nm w, TItem.hole nm w ∈ cfg.filepath ∧
        (kwArgs epoch batch logs).lookup nm = none ∧
        get_file_path cfg.filepath epoch batch logs = .error nm) ∧
    (∀ e, get_file_path cfg.filepath epoch batch logs = .error e →
      (isIntFreq cfg.save_freq
        || decide (cfg.period ≤ st.epochs_since_last_save)) = true →
      save_model cfg st epoch batch logs = .error e) := by
  constructor
  · intro hmiss
    exact pyFormat_missing cfg.filepath (kwArgs epoch batch logs) hmiss
  · intro e herr hgate
    rw [save_model, if_pos hgate, herr]

/-- C9 witness: a template holding only a mape placeholder against empty
logs errors on mape, and an epoch-frequency save attempt (no batch index,
period reached) propagates the error. -/
theorem c9_missing_placeholder_aborts_witness :
    save_model
      ⟨[.hole "mape" 0], "val_loss", false, .lt, posInfQ, .epochF, 1⟩
      ⟨posInfQ, 1⟩ 0 none [] = .error "mape" :=
  (c9_missing_placeholder_aborts
      ⟨[.hole "mape" 0], "val_loss", false, .lt, posInfQ, .epochF, 1⟩
      ⟨posInfQ, 1⟩ 0 none []).2 "mape" rfl (by decide)

/-- C8: under save_best_only, an event whose logs lack the monitored metric
produces no write and no best-value commit — the tracker's best is left
unchanged and save_model returns normally (warning only, no exception). -/
theorem c8_missing_metric_skips (cfg : Config) (st : TState) (epoch : Nat)
    (batch : Option Nat) (logs : List (String × Rat))
    (hbo : cfg.save_best_only = true)
    (hmiss : logs.lookup cfg.monitor = none)
    (hfmt : ∃ fp, get_file_path cfg.filepath epoch batch logs = .ok fp) :
    ∃ st', save_model cfg st epoch batch logs = .ok (st', none) ∧
      st'.best = st.best := by
  obtain ⟨fp, hfp⟩ := hfmt
  by_cases hcond : (isIntFreq cfg.save_freq
      || decide (cfg.period ≤ st.epochs_since_last_save)) = true
  · exact ⟨{ st with epochs_since_last_save := 0 },
      by simp [save_model, hcond, hfp, hbo, hmiss], rfl⟩
  · rw [Bool.not_eq_true] at hcond
    exact ⟨st, by simp [save_model, hcond], rfl⟩

/-- C8 witness: the theorem applied with a literal path, empty logs and a
step-frequency configuration monitoring val_loss. -/
theorem c8_missing_metric_skips_witness :
    ∃ st', save_model
      ⟨[.lit "m.h5"], "val_loss", true, .lt, posInfQ, .intF 5, 1⟩
      ⟨finQ 2, 3⟩ 0 none [] = .ok (st', none) ∧
      st'.best = (⟨finQ 2, 3⟩ : TState).best :=
  c8_missing_metric_skips
    ⟨[.lit "m.h5"], "val_loss", true, .lt, posInfQ, .intF 5, 1⟩
    ⟨finQ 2, 3⟩ 0 none [] rfl rfl ⟨"m.h5", rfl⟩

/-- One save event moves the stored best only in the improving direction,
and only when the monitored value beats it under monitor_op. -/
theorem save_model_best_step (cfg : Config) (st : TState) (epoch : Nat)
    (batch : Option Nat) (logs : List (String × Rat)) (st' : TState)
    (out : Option String)
    (h : save_model cfg st epoch batch logs = .ok (st', out)) :
    (cfg.op = .lt → st'.best ≤ st.best) ∧
    (cfg.op = .gt → st.best ≤ st'.best) ∧
    (st'.best = st.best ∨ ∃ c, logs.lookup cfg.monitor = some c ∧
      monitor_op cfg.op (finQ c) st.best = true ∧ st'.best = finQ c) := by
  simp only [save_model] at h
  split at h
  · split at h
    · exact absurd h (by simp)
    · split at h
      · split at h
        · simp only [Except.ok.injEq, Prod.mk.injEq] at h
          obtain ⟨h1, h2⟩ := h
          subst h1
          exact ⟨fun _ => le_refl _, fun _ => le_refl _, Or.inl rfl⟩
        · rename_i current hlk
          split at h
          · rename_i himp
            simp only [Except.ok.injEq, Prod.mk.injEq] at h
            obtain ⟨h1, h2⟩ := h
            subst h1
            refine ⟨?_, ?_, Or.inr ⟨current, hlk, himp, rfl⟩⟩
            · intro hop
              rw [hop] at himp
              simp only [monitor_op, decide_eq_true_eq] at himp
              exact le_of_lt himp
            · intro hop
              rw [hop] at himp
              simp only [monitor_op, decide_eq_true_eq] at himp
              exact le_of_lt himp
          · simp only [Except.ok.injEq, Prod.mk.injEq] at h
            obtain ⟨h1, h2⟩ := h
            subst h1
            exact ⟨fun _ => le_refl _, fun _ => le_refl _, Or.inl rfl⟩
      · simp only [Except.ok.injEq, Prod.mk.injEq] at h
        obtain ⟨h1, h2⟩ := h
        subst h1
        exact ⟨fun _ => le_refl _, fun _ => le_refl _, Or.inl rfl⟩
  · simp only [Except.ok.injEq, Prod.mk.injEq] at h
    obtain ⟨h1, h2⟩ := h
    subst h1
    exact ⟨fun _ => le_refl _, fun _ => le_refl _, Or.inl rfl⟩

/-- C3: over any session of save events the stored best value moves only in
the improving direction — non-increasing under the less-than (Min) mode,
non-decreasing under the greater-than (Max) mode — and a single event
changes it only to a monitored value that monitor_op reports as an
improvement. -/
theorem c3_best_monotone (cfg : Config) (st : TState)
    (events : List SaveEvent) :
    (cfg.op = .lt → (run_events cfg st events).best ≤ st.best) ∧
    (cfg.op = .gt → st.best ≤ (run_events cfg st events).best) ∧
    (∀ epoch batch logs st' out,
      save_model cfg st epoch batch logs = .ok (st', out) →
      st'.best = st.best ∨ ∃ c, logs.lookup cfg.monitor = some c ∧
        monitor_op cfg.op (finQ c) st.best = true ∧ st'.best = finQ c) ∧
    (∀ fp mon sbo fr th c0, init_checkpoint fp mon sbo "min" fr th = .ok c0 →
      c0.best0 = (th.map finQ).getD posInfQ) ∧
    (∀ fp mon sbo fr th c0, init_checkpoint fp mon sbo "max" fr th = .ok c0 →
      c0.best0 = (th.map finQ).getD negInfQ) := by
  refine ⟨?_, ?_, ?_, ?_, ?_⟩
  · induction events generalizing st with
    | nil => intro _; exact le_refl _
    | cons e es ih =>
        intro hop
        simp only [run_events]
        cases h : save_model cfg st e.epoch e.batch e.logs with
        | error err => exact le_refl _
        | ok r =>
            obtain ⟨st1, out⟩ := r
            have hstep := save_model_best_step cfg st e.epoch e.batch e.logs
              st1 out h
            exact le_trans (ih st1 hop) (hstep.1 hop)
  · induction events generalizing st with
    | nil => intro _; exact le_refl _
    | cons e es ih =>
        intro hop
        simp only [run_events]
        cases h : save_model cfg st e.epoch e.batch e.logs with
        | error err => exact le_refl _
        | ok r =>
            obtain ⟨st1, out⟩ := r
            have hstep := save_model_best_step cfg st e.epoch e.batch e.logs
              st1 out h
            exact le_trans (hstep.2.1 hop) (ih st1 hop)
  · intro epoch batch logs st' out h
    exact (save_model_best_step cfg st epoch batch logs st' out h).2.2
  · intro fp mon sbo fr th c0 h
    cases fr with
    | otherF => simp [init_checkpoint] at h
    | epochF =>
        simp [init_checkpoint] at h
        rw [← h]
    | intF n =>
        simp [init_checkpoint] at h
        rw [← h]
  · intro fp mon sbo fr th c0 h
    cases fr with
    | otherF => simp [init_checkpoint] at h
    | epochF =>
        simp [init_checkpoint] at h
        rw [← h]
    | intF n =>
        simp [init_checkpoint] at h
        rw [← h]

/-- C3 witness: a Min-mode session whose second event improves the best
value; the run's final best is at most the starting best. -/
theorem c3_best_monotone_witness :
    (CmpOp.lt = CmpOp.lt →
      (run_events ⟨[.lit "m.h5"], "val_loss", true, .lt, posInfQ, .intF 1, 1⟩
        ⟨posInfQ, 0⟩
        [⟨0, some 0, [("val_loss", 3)]⟩, ⟨0, some 1, [("val_loss", 2)]⟩]).best
        ≤ (⟨posInfQ, 0⟩ : TState).best) :=
  (c3_best_monotone ⟨[.lit "m.h5"], "val_loss", true, .lt, posInfQ, .intF 1, 1⟩
    ⟨posInfQ, 0⟩
    [⟨0, some 0, [("val_loss", 3)]⟩, ⟨0, some 1, [("val_loss", 2)]⟩]).1
